import Mathlib

/-!
Verification of the SRT subtitle importer/exporter core
(`src/__init__.py` of Blender_VSE_SRT_Subtitle_Importer).

Shallow embedding conventions:
* Python `str` values are modelled as `List Char` (a Python string is a
  sequence of code points).
* Python floats are modelled as exact rationals `ℚ`; the spec phrases all
  numeric properties over the reals, and every concrete value appearing in
  the claims is exactly representable.
* Python integers are `ℤ`, frame numbers are `ℤ`.
* Fallible operations (`int(...)`, `float(...)`, tuple unpacking) return
  `Option`; an uncaught exception inside an operator `execute` is modelled
  as the whole operator returning `none` (the code catches every exception
  and reports `CANCELLED`).
* Character classes of Python builtins (`\d`, `str.isspace`, `int()`,
  `float()`) are modelled over their ASCII behaviour, which covers every
  string the claims and the file format involve; `float()` exponent /
  `inf` / `nan` literals and `int()` underscore separators are not
  modelled.
-/

section SRTCore

/- The Batteries definitions of the rational operations are `@[irreducible]`,
which blocks `decide` on concrete rational computations; restore the default
reducibility locally (this does not change any definition). -/
attribute [local semireducible] Rat.add Rat.mul Rat.inv Rat.sub

/-- ASCII whitespace characters recognised by Python `str.strip()` /
`str.isspace()` (space, tab, newline, carriage return, vertical tab,
form feed). -/
def pySpace (c : Char) : Bool :=
  c = ' ' || c = '\t' || c = '\n' || c = '\r' || c = Char.ofNat 11 || c = Char.ofNat 12

/-- Numeric value of a decimal digit character. -/
def dv (c : Char) : ℕ := c.toNat - 48

/-- The decimal digit character for `d < 10`. -/
def toDigitChar (d : ℕ) : Char := Char.ofNat (48 + d)

/-- Value of a string of decimal digit characters (most significant first). -/
def digitsVal (l : List Char) : ℕ := l.foldl (fun a c => 10 * a + dv c) 0

/-- Decimal digits of `n`, least significant first.  The first argument is
fuel (any value `≥ n` gives the true digit list); structural recursion on the
fuel keeps the definition kernel-reducible. -/
def natDigitsRevGo : ℕ → ℕ → List ℕ
  | 0, n => [n % 10]
  | f + 1, n => if n < 10 then [n] else n % 10 :: natDigitsRevGo f (n / 10)

/-- Decimal digits of `n`, least significant first. -/
def natDigitsRev (n : ℕ) : List ℕ := natDigitsRevGo n n

/-- Decimal rendering of a natural number (no padding), as Python `str(n)`. -/
def natRender (n : ℕ) : List Char := (natDigitsRev n).reverse.map toDigitChar

/-- Python `f"{n:02d}"` for `n : ℕ`. -/
def natPad2 (n : ℕ) : List Char :=
  if n < 10 then '0' :: natRender n else natRender n

/-- Python `f"{n:03d}"` for `n : ℕ`. -/
def natPad3 (n : ℕ) : List Char :=
  if n < 10 then '0' :: '0' :: natRender n
  else if n < 100 then '0' :: natRender n
  else natRender n

/-- Python `f"{z:02d}"` for `z : ℤ` (the minimum width 2 counts the sign, so
negative values get no zero padding beyond `-` plus at least one digit). -/
def intPad2 (z : ℤ) : List Char :=
  if z < 0 then '-' :: natRender (-z).toNat else natPad2 z.toNat

/-- Python `f"{z:03d}"` for `z : ℤ`. -/
def intPad3 (z : ℤ) : List Char :=
  if z < 0 then '-' :: natPad2 (-z).toNat else natPad3 z.toNat

/-- Python `int(q)` on a real value: truncation toward zero. -/
def pyInt (q : ℚ) : ℤ := if q < 0 then -⌊-q⌋ else ⌊q⌋

/-- Python float floor division `a // b`: the floor, as a real value. -/
def pyFloorDiv (a b : ℚ) : ℚ := ((⌊a / b⌋ : ℤ) : ℚ)

/-- Python float modulo `a % b` (result has the sign of `b`):
`a - b * (a // b)`. -/
def pyMod (a b : ℚ) : ℚ := a - b * pyFloorDiv a b

/-- Python `str.strip()`: drop leading and trailing whitespace characters. -/
def pyStrip (l : List Char) : List Char :=
  ((l.dropWhile pySpace).reverse.dropWhile pySpace).reverse

/-- Python `str.replace(c₁, c₂)` for single characters. -/
def pyReplace (c₁ c₂ : Char) (l : List Char) : List Char :=
  l.map fun c => if c = c₁ then c₂ else c

/-- Python `str.split(sep)` for a single-character separator: split at every
occurrence, keeping empty parts. -/
def pySplitCh (sep : Char) : List Char → List (List Char)
  | [] => [[]]
  | c :: cs =>
    if c = sep then [] :: pySplitCh sep cs
    else match pySplitCh sep cs with
      | [] => [[c]]
      | p :: ps => (c :: p) :: ps

/-- Python `int(s)` on a string: optional surrounding whitespace, optional
sign, then a non-empty run of decimal digits (underscore separators are not
modelled). `none` models `ValueError`. -/
def pyIntOfStr (l : List Char) : Option ℤ :=
  match pyStrip l with
  | [] => none
  | c :: cs =>
    if c = '-' then
      if cs ≠ [] ∧ cs.all Char.isDigit then some (-(digitsVal cs : ℤ)) else none
    else if c = '+' then
      if cs ≠ [] ∧ cs.all Char.isDigit then some (digitsVal cs : ℤ) else none
    else if (c :: cs).all Char.isDigit then some (digitsVal (c :: cs) : ℤ) else none

/-- The unsigned part of Python `float(s)`, restricted to plain decimal
literals: digits with an optional decimal point (`"1.5"`, `"5"`, `".5"`,
`"5."`); at least one digit overall.  Exponent, `inf` and `nan` forms are
not modelled. -/
def pyFloatCore (m : List Char) : Option ℚ :=
  let ip := m.takeWhile Char.isDigit
  match m.dropWhile Char.isDigit with
  | [] => if ip ≠ [] then some ((digitsVal ip : ℚ)) else none
  | rc :: fr =>
    if rc = '.' then
      if fr.all Char.isDigit ∧ (ip ≠ [] ∨ fr ≠ []) then
        some ((digitsVal ip : ℚ) + (digitsVal fr : ℚ) / ((10 ^ fr.length : ℕ) : ℚ))
      else none
    else none

/-- Python `float(s)` on a string: optional surrounding whitespace, optional
sign, then an unsigned decimal literal.  `none` models `ValueError`. -/
def pyFloatOfStr (l : List Char) : Option ℚ :=
  match pyStrip l with
  | [] => none
  | c :: cs =>
    if c = '-' then (pyFloatCore cs).map (fun q => -q)
    else if c = '+' then pyFloatCore cs
    else pyFloatCore (c :: cs)

/-- `parse_srt_time` (src/__init__.py:25-28):
`hours, minutes, seconds = time_str.replace(',', '.').split(':')` followed by
`int(hours) * 3600 + int(minutes) * 60 + float(seconds)`.  `none` models the
`ValueError` raised by unpacking or by the numeric conversions. -/
def parse_srt_time (t : List Char) : Option ℚ :=
  match pySplitCh ':' (pyReplace ',' '.' t) with
  | [h, m, s] =>
    match pyIntOfStr h, pyIntOfStr m, pyFloatOfStr s with
    | some hi, some mi, some sv => some ((hi : ℚ) * 3600 + (mi : ℚ) * 60 + sv)
    | _, _, _ => none
  | _ => none

/-- `format_srt_time` (src/__init__.py:30-36):
`hours = int(seconds // 3600)`, `minutes = int((seconds % 3600) // 60)`,
`seconds = seconds % 60`, `milliseconds = int((seconds - int(seconds)) * 1000)`,
rendered as `f"{hours:02d}:{minutes:02d}:{int(seconds):02d},{milliseconds:03d}"`. -/
def format_srt_time (s : ℚ) : List Char :=
  let hours : ℤ := pyInt (pyFloorDiv s 3600)
  let minutes : ℤ := pyInt (pyFloorDiv (pyMod s 3600) 60)
  let secs : ℚ := pyMod s 60
  let milliseconds : ℤ := pyInt ((secs - (pyInt secs : ℚ)) * 1000)
  intPad2 hours ++ ':' :: intPad2 minutes ++ ':' :: intPad2 (pyInt secs) ++
    ',' :: intPad3 milliseconds

example : format_srt_time (-1) = "-1:59:59,000".data := by decide
example : format_srt_time (3/2) = "00:00:01,500".data := by decide
example : format_srt_time (3/5000) = "00:00:00,000".data := by decide
example : parse_srt_time "0:0:1,5".data = some (3/2) := by decide
example : parse_srt_time "00:00:01,500".data = some (3/2) := by decide
example : parse_srt_time "00:00,01,500".data = none := by decide

/-!
### Parser

The import operator (src/__init__.py:112-113) scans the file content with
`re.findall` on
`(\d+)\n(\d{2}:\d{2}:\d{2},\d{3}) --> (\d{2}:\d{2}:\d{2},\d{3})\n([\s\S]*?)(?=\n\n\d+\n|$)`.

The scan is modelled faithfully as Python's backtracking engine behaves on
this particular pattern:
* the engine tries the pattern at positions 0, 1, 2, …; after a match it
  resumes at the end of the match (the lookahead consumes nothing);
* `(\d+)\n` can only succeed as the maximal digit run followed by a newline
  (shorter runs leave a digit, not `\n`, as the next character);
* `([\s\S]*?)` is lazy: the text group ends at the first position where the
  lookahead `\n\n\d+\n|$` matches; without `re.MULTILINE`, `$` matches at the
  end of the input and also just before a final trailing newline;
* `\d` is modelled as an ASCII digit.
-/

/-- One tuple produced by `re.findall`: the four captured groups. -/
structure RawMatch where
  idx : List Char
  t1 : List Char
  t2 : List Char
  txt : List Char
  deriving DecidableEq, Repr

/-- Match `(\d+)\n` at the head of `l`: the maximal digit run (non-empty)
followed by a newline; returns the run and the remainder after the newline. -/
def takeIdx (l : List Char) : Option (List Char × List Char) :=
  let ds := l.takeWhile Char.isDigit
  match l.dropWhile Char.isDigit with
  | c :: r => if c = '\n' ∧ ds ≠ [] then some (ds, r) else none
  | [] => none

/-- Match `\d{2}:\d{2}:\d{2},\d{3}` at the head of `l`; returns the twelve
matched characters and the remainder. -/
def checkTime : List Char → Option (List Char × List Char)
  | c1 :: c2 :: c3 :: c4 :: c5 :: c6 :: c7 :: c8 :: c9 :: c10 :: c11 :: c12 :: rest =>
    if c1.isDigit ∧ c2.isDigit ∧ c3 = ':' ∧ c4.isDigit ∧ c5.isDigit ∧ c6 = ':' ∧
        c7.isDigit ∧ c8.isDigit ∧ c9 = ',' ∧ c10.isDigit ∧ c11.isDigit ∧ c12.isDigit then
      some ([c1, c2, c3, c4, c5, c6, c7, c8, c9, c10, c11, c12], rest)
    else none
  | _ => none

/-- Match a literal string at the head of `l`. -/
def expectLit : List Char → List Char → Option (List Char)
  | [], l => some l
  | _ :: _, [] => none
  | c :: cs, x :: xs => if x = c then expectLit cs xs else none

/-- Is the head of this list a newline? -/
def headIsNl : List Char → Bool
  | c :: _ => c = '\n'
  | [] => false

/-- Does the lookahead `\n\n\d+\n|$` match at this suffix of the input?
`$` (no `re.MULTILINE`) matches at the end of input or just before a final
trailing newline. -/
def lookaheadHit (l : List Char) : Bool :=
  match l with
  | [] => true
  | [c] => c = '\n'
  | c1 :: c2 :: r =>
    c1 = '\n' && c2 = '\n' && !(r.takeWhile Char.isDigit).isEmpty &&
      headIsNl (r.dropWhile Char.isDigit)

/-- The lazy group `([\s\S]*?)(?=\n\n\d+\n|$)`: split `l` at the first
position where the lookahead matches (such a position always exists because
`$` matches at the end of input). -/
def lazyText (l : List Char) : List Char × List Char :=
  if lookaheadHit l then ([], l)
  else match l with
    | [] => ([], [])
    | c :: cs =>
      let p := lazyText cs
      (c :: p.1, p.2)

/-- The literal ` --> ` between the two time codes. -/
def arrowLit : List Char := [' ', '-', '-', '>', ' ']

/-- Try the whole pattern anchored at the head of `l`; on success return the
captured groups and the remainder of the input after the match. -/
def matchAt (l : List Char) : Option (RawMatch × List Char) :=
  match takeIdx l with
  | none => none
  | some (ds, r1) =>
    match checkTime r1 with
    | none => none
    | some (t1, r2) =>
      match expectLit arrowLit r2 with
      | none => none
      | some r3 =>
        match checkTime r3 with
        | none => none
        | some (t2, r4) =>
          match r4 with
          | '\n' :: r5 =>
            let p := lazyText r5
            some (⟨ds, t1, t2, p.1⟩, p.2)
          | _ => none

/-- The `re.findall` scan, driven by fuel (structural recursion keeps it
kernel-reducible); any fuel `> l.length` computes the full scan. -/
def scanFuel : ℕ → List Char → List RawMatch
  | 0, _ => []
  | f + 1, l =>
    match matchAt l with
    | some (m, rest) => m :: scanFuel f rest
    | none =>
      match l with
      | [] => []
      | _ :: t => scanFuel f t

/-- `re.findall(pattern, content)` (src/__init__.py:113). -/
def scanSRT (content : List Char) : List RawMatch :=
  scanFuel (content.length + 1) content

/-- One parsed subtitle entry as the import loop sees it: the captured
groups, with the text cleaned by `text.strip()` (src/__init__.py:138). -/
structure SubtitleEntry where
  index : List Char
  startCode : List Char
  endCode : List Char
  text : List Char
  deriving DecidableEq, Repr

/-- The parser stage of the import pipeline: the `re.findall` matches with
the text group stripped. -/
def parseSRT (content : List Char) : List SubtitleEntry :=
  (scanSRT content).map fun m => ⟨m.idx, m.t1, m.t2, pyStrip m.txt⟩

/-- One text strip as placed on the timeline by the import loop
(src/__init__.py:127-157). -/
structure PlacedEntry where
  index : List Char
  start_time : ℚ
  end_time : ℚ
  start_frame : ℤ
  end_frame : ℤ
  channel : ℤ
  text : List Char
  deriving DecidableEq, Repr

/-- The body of the import loop for one match (src/__init__.py:127-147):
`start_sec = parse_srt_time(start_time)`, `end_sec = parse_srt_time(end_time)`,
`start_frame = int(self.start_frame + start_sec * fps)`,
`end_frame = int(self.start_frame + end_sec * fps)`,
`duration = end_frame - start_frame`, text stripped, and the strip created
with `frame_start = start_frame`, `frame_end = start_frame + duration`.
`none` models an uncaught exception. -/
def placeEntry (fps : ℚ) (off : ℤ) (ch : ℤ) (m : RawMatch) : Option PlacedEntry :=
  match parse_srt_time m.t1, parse_srt_time m.t2 with
  | some start_sec, some end_sec =>
    let start_frame : ℤ := pyInt ((off : ℚ) + start_sec * fps)
    let end_frame : ℤ := pyInt ((off : ℚ) + end_sec * fps)
    let duration : ℤ := end_frame - start_frame
    some ⟨m.idx, start_sec, end_sec, start_frame, start_frame + duration, ch, pyStrip m.txt⟩
  | _, _ => none

/-- The import loop over all matches; `none` as soon as one iteration
raises. -/
def placeAll (fps : ℚ) (off : ℤ) (ch : ℤ) : List RawMatch → Option (List PlacedEntry)
  | [] => some []
  | m :: ms =>
    match placeEntry fps off ch m, placeAll fps off ch ms with
    | some p, some ps => some (p :: ps)
    | _, _ => none

/-- `SEQUENCER_OT_ImportSRT.execute` (src/__init__.py:94-171), given the file
content: scan, fail (`CANCELLED`) if no matches, then place every match.
`none` models a `CANCELLED` result. -/
def importSRT (fps : ℚ) (off : ℤ) (ch : ℤ) (content : List Char) : Option (List PlacedEntry) :=
  match scanSRT content with
  | [] => none
  | ms => placeAll fps off ch ms

/-!
### Exporter

`SEQUENCER_OT_ExportSRT.execute` (src/__init__.py:207-252): collect selected
text strips, sort by `frame_start` (Python `list.sort`, a stable sort,
modelled by insertion sort — any two stable sorts on the same key agree),
then write blocks numbered from 1 with
`start_sec = (strip.frame_start - 1) / fps` and
`end_sec = strip.frame_final_end / fps`.
-/

/-- A selected Blender text strip, as the exporter reads it. -/
structure TextStrip where
  frame_start : ℤ
  frame_final_end : ℤ
  text : List Char
  deriving DecidableEq, Repr

/-- Sort key comparison used by `selected_strips.sort(key=lambda strip:
strip.frame_start)` (src/__init__.py:227). -/
def stripLe (a b : TextStrip) : Prop := a.frame_start ≤ b.frame_start

instance : DecidableRel stripLe := fun a b =>
  inferInstanceAs (Decidable (a.frame_start ≤ b.frame_start))

instance : IsTotal TextStrip stripLe := ⟨fun _ _ => Int.le_total _ _⟩

instance : IsTrans TextStrip stripLe := ⟨fun _ _ _ => Int.le_trans⟩

/-- The stable sort of the selected strips by start frame. -/
def sortStrips (l : List TextStrip) : List TextStrip := l.insertionSort stripLe

/-- One block written to the SRT file. -/
structure SRTBlock where
  index : ℕ
  start_sec : ℚ
  end_sec : ℚ
  startCode : List Char
  endCode : List Char
  text : List Char
  deriving DecidableEq, Repr

/-- The export write loop (src/__init__.py:232-243): `enumerate(strips, i)`
with the frame-to-seconds conversion and time-code formatting per strip. -/
def exportBlocks (fps : ℚ) : ℕ → List TextStrip → List SRTBlock
  | _, [] => []
  | i, s :: ss =>
    let start_sec : ℚ := ((s.frame_start : ℚ) - 1) / fps
    let end_sec : ℚ := (s.frame_final_end : ℚ) / fps
    ⟨i, start_sec, end_sec, format_srt_time start_sec, format_srt_time end_sec, s.text⟩ ::
      exportBlocks fps (i + 1) ss

/-- `SEQUENCER_OT_ExportSRT.execute` on the selected text strips: `none`
(`CANCELLED`) when the selection is empty, otherwise the blocks of the
written file in order. -/
def exportSRT (fps : ℚ) (strips : List TextStrip) : Option (List SRTBlock) :=
  match strips with
  | [] => none
  | _ => some (exportBlocks fps 1 (sortStrips strips))

/-!
### Definitions taken from the spec's words (for comparison with the code)
-/

/-- Modelled from the spec: the exact time-code grammar `HH:MM:SS,mmm` of
spec §4.1 / §6 — comma separator, exactly 2 digits for hours, minutes and
seconds, exactly 3 fractional digits. -/
def matchesTimeGrammar (l : List Char) : Bool :=
  match l with
  | [c1, c2, c3, c4, c5, c6, c7, c8, c9, c10, c11, c12] =>
    c1.isDigit && c2.isDigit && c3 = ':' && c4.isDigit && c5.isDigit && c6 = ':' &&
      c7.isDigit && c8.isDigit && c9 = ',' && c10.isDigit && c11.isDigit && c12.isDigit
  | _ => false

/-- Modelled from the spec: `format_time_code` as claim C4 words it — the
`SS` field is `floor(s) mod 60` and the milliseconds field is
`round((s - floor(s)) * 1000)`, fields zero-padded as in the code. -/
def format_srt_time_spec (s : ℚ) : List Char :=
  intPad2 ⌊s / 3600⌋ ++ ':' :: intPad2 ((⌊s⌋ / 60) % 60) ++ ':' :: intPad2 (⌊s⌋ % 60) ++
    ',' :: intPad3 (round ((s - (⌊s⌋ : ℚ)) * 1000))

/-!
### Concrete documents used in the claims
-/

/-- The literal two-cue document of spec §8.7. -/
def sampleDoc : List Char :=
  ("1\n00:00:01,000 --> 00:00:02,500\nHello world\n\n" ++
   "2\n00:00:03,000 --> 00:00:04,000\nLine one\nLine two").data

/-- A document with one well-formed cue block followed by one malformed
block (`junk line` has no index line and no time line). -/
def malformedTailDoc : List Char :=
  "1\n00:00:01,000 --> 00:00:02,000\nHello\n\njunk line".data

/-- A well-formed document whose single cue has start time after end time. -/
def reversedTimesDoc : List Char :=
  "1\n00:00:05,000 --> 00:00:01,000\nHi".data

/-- A well-formed document whose text has a leading and a trailing space. -/
def edgeSpacesDoc : List Char :=
  "1\n00:00:01,000 --> 00:00:02,000\n Hello ".data

/-!
### Well-formed cue blocks (spec §4.2 grammar), for the parse-count claim

A well-formed block is an index line of digits, a time line whose two time
codes match the §4.1 grammar, and one or more non-blank text lines; blocks
are separated by exactly one blank line (spec §4.2).
-/

/-- The nine digit positions of a `HH:MM:SS,mmm` time code. -/
structure TimeCode where
  h1 : Char
  h2 : Char
  m1 : Char
  m2 : Char
  s1 : Char
  s2 : Char
  f1 : Char
  f2 : Char
  f3 : Char
  deriving DecidableEq, Repr

/-- The twelve characters of a time code. -/
def renderTC (t : TimeCode) : List Char :=
  [t.h1, t.h2, ':', t.m1, t.m2, ':', t.s1, t.s2, ',', t.f1, t.f2, t.f3]

/-- All nine positions hold decimal digits. -/
def digitsTC (t : TimeCode) : Prop :=
  t.h1.isDigit = true ∧ t.h2.isDigit = true ∧ t.m1.isDigit = true ∧ t.m2.isDigit = true ∧
    t.s1.isDigit = true ∧ t.s2.isDigit = true ∧ t.f1.isDigit = true ∧ t.f2.isDigit = true ∧
    t.f3.isDigit = true

instance (t : TimeCode) : Decidable (digitsTC t) := by unfold digitsTC; infer_instance

/-- One well-formed cue block, by its content. -/
structure WFBlock where
  idx : List Char
  t1 : TimeCode
  t2 : TimeCode
  txt : List Char
  deriving DecidableEq, Repr

/-- The raw text of a cue block. -/
def renderBlock (b : WFBlock) : List Char :=
  b.idx ++ '\n' :: (renderTC b.t1 ++ arrowLit ++ renderTC b.t2 ++ '\n' :: b.txt)

/-- A document: cue blocks separated by exactly one blank line. -/
def renderDoc : List WFBlock → List Char
  | [] => []
  | [b] => renderBlock b
  | b :: bs => renderBlock b ++ '\n' :: '\n' :: renderDoc bs

/-- Well-formedness of a block: non-empty all-digit index, digit time codes,
and a non-empty text with no blank line inside (no two consecutive newlines)
and no trailing newline. -/
def goodBlock (b : WFBlock) : Prop :=
  b.idx ≠ [] ∧ (∀ c ∈ b.idx, c.isDigit = true) ∧ digitsTC b.t1 ∧ digitsTC b.t2 ∧
    b.txt ≠ [] ∧ ¬ ['\n', '\n'] <:+: b.txt ∧ b.txt.getLast? ≠ some '\n'

instance (b : WFBlock) : Decidable (goodBlock b) := by unfold goodBlock; infer_instance

/-- The raw match a well-formed block should produce. -/
def blockMatch (b : WFBlock) : RawMatch :=
  ⟨b.idx, renderTC b.t1, renderTC b.t2, b.txt⟩

/-- The subtitle entry a well-formed block should produce. -/
def blockEntry (b : WFBlock) : SubtitleEntry :=
  ⟨b.idx, renderTC b.t1, renderTC b.t2, pyStrip b.txt⟩

example :
    (parseSRT sampleDoc).map (fun e => e.text) =
      ["Hello world".data, "Line one\nLine two".data] := by decide

example :
    (parseSRT malformedTailDoc).map (fun e => e.text) = ["Hello\n\njunk line".data] := by
  decide

example :
    (importSRT 24 1 1 sampleDoc).map (fun l => l.map fun p => (p.start_frame, p.end_frame)) =
      some [(25, 61), (73, 97)] := by decide

/-!
## Numeric helper lemmas
-/

theorem pyInt_intCast (z : ℤ) : pyInt (z : ℚ) = z := by
  unfold pyInt
  split
  · have h : (-(z : ℚ)) = ((-z : ℤ) : ℚ) := by push_cast; ring
    rw [h, Int.floor_intCast]; ring
  · exact Int.floor_intCast z

theorem pyInt_of_nonneg {q : ℚ} (h : 0 ≤ q) : pyInt q = ⌊q⌋ := by
  unfold pyInt; rw [if_neg (not_lt.2 h)]

theorem pyInt_mono {a b : ℚ} (h : a ≤ b) : pyInt a ≤ pyInt b := by
  unfold pyInt
  split <;> split
  · have := Int.floor_mono (neg_le_neg h)
    omega
  · rename_i ha hb
    have h1 : 0 ≤ ⌊-a⌋ := Int.floor_nonneg.2 (by linarith)
    have h2 : 0 ≤ ⌊b⌋ := Int.floor_nonneg.2 (not_lt.1 hb)
    omega
  · rename_i ha hb
    exact absurd (lt_of_le_of_lt h hb) ha
  · exact Int.floor_mono h

theorem pyMod_def (s b : ℚ) : pyMod s b = s - b * ((⌊s / b⌋ : ℤ) : ℚ) := rfl

theorem pyMod_eq_fract (s : ℚ) {b : ℚ} (hb : b ≠ 0) :
    pyMod s b = b * Int.fract (s / b) := by
  rw [pyMod_def, Int.fract]
  field_simp

theorem pyMod_nonneg (s : ℚ) {b : ℚ} (hb : 0 < b) : 0 ≤ pyMod s b := by
  rw [pyMod_eq_fract s hb.ne']
  exact mul_nonneg hb.le (Int.fract_nonneg _)

theorem pyMod_lt (s : ℚ) {b : ℚ} (hb : 0 < b) : pyMod s b < b := by
  rw [pyMod_eq_fract s hb.ne']
  calc b * Int.fract (s / b) < b * 1 := by
        exact mul_lt_mul_of_pos_left (Int.fract_lt_one _) hb
    _ = b := mul_one b

/-- Floors commute with division by a positive natural: `⌊s / n⌋ = ⌊s⌋ / n`. -/
theorem floor_div_natCast (s : ℚ) (n : ℕ) (hn : 0 < n) :
    ⌊s / (n : ℚ)⌋ = ⌊s⌋ / (n : ℤ) := by
  have hn' : (0 : ℚ) < (n : ℚ) := by exact_mod_cast hn
  rw [← Rat.floor_intCast_div_natCast ⌊s⌋ n]
  apply le_antisymm
  · have h2 : (⌊s / (n : ℚ)⌋ : ℚ) * (n : ℚ) ≤ s := (le_div_iff₀ hn').1 (Int.floor_le _)
    have h3 : ⌊s / (n : ℚ)⌋ * (n : ℤ) ≤ ⌊s⌋ := Int.le_floor.2 (by push_cast; exact h2)
    exact Int.le_floor.2 ((le_div_iff₀ hn').2 (by exact_mod_cast h3))
  · exact Int.floor_mono ((div_le_div_iff_of_pos_right hn').2 (Int.floor_le s))

/-!
## Digit and rendering lemmas
-/

theorem toDigitChar_isDigit {d : ℕ} (h : d < 10) : (toDigitChar d).isDigit = true := by
  interval_cases d <;> decide

theorem dv_toDigitChar {d : ℕ} (h : d < 10) : dv (toDigitChar d) = d := by
  interval_cases d <;> decide

theorem natDigitsRevGo_succ (f n : ℕ) :
    natDigitsRevGo (f + 1) n = if n < 10 then [n] else n % 10 :: natDigitsRevGo f (n / 10) :=
  rfl

theorem natDigitsRev_lt10 {n : ℕ} (h : n < 10) : natDigitsRev n = [n] := by
  unfold natDigitsRev
  cases n with
  | zero => rfl
  | succ k => rw [natDigitsRevGo_succ, if_pos h]

theorem natDigitsRev_two {n : ℕ} (h1 : 10 ≤ n) (h2 : n < 100) :
    natDigitsRev n = [n % 10, n / 10] := by
  obtain ⟨k, rfl⟩ : ∃ k, n = k + 10 := ⟨n - 10, by omega⟩
  have e1 : natDigitsRev (k + 10) = natDigitsRevGo (k + 9 + 1) (k + 10) := rfl
  rw [e1, natDigitsRevGo_succ, if_neg (by omega)]
  have e2 : natDigitsRevGo (k + 9) ((k + 10) / 10) =
      natDigitsRevGo (k + 8 + 1) ((k + 10) / 10) := rfl
  rw [e2, natDigitsRevGo_succ, if_pos (by omega)]

theorem natDigitsRev_three {n : ℕ} (h1 : 100 ≤ n) (h2 : n < 1000) :
    natDigitsRev n = [n % 10, n / 10 % 10, n / 10 / 10] := by
  obtain ⟨k, rfl⟩ : ∃ k, n = k + 100 := ⟨n - 100, by omega⟩
  have e1 : natDigitsRev (k + 100) = natDigitsRevGo (k + 99 + 1) (k + 100) := rfl
  rw [e1, natDigitsRevGo_succ, if_neg (by omega)]
  have e2 : natDigitsRevGo (k + 99) ((k + 100) / 10) =
      natDigitsRevGo (k + 98 + 1) ((k + 100) / 10) := rfl
  rw [e2, natDigitsRevGo_succ, if_neg (by omega)]
  have e3 : natDigitsRevGo (k + 98) ((k + 100) / 10 / 10) =
      natDigitsRevGo (k + 97 + 1) ((k + 100) / 10 / 10) := rfl
  rw [e3, natDigitsRevGo_succ, if_pos (by omega)]

theorem natRender_lt10 {n : ℕ} (h : n < 10) : natRender n = [toDigitChar n] := by
  unfold natRender; rw [natDigitsRev_lt10 h]; rfl

theorem natRender_two {n : ℕ} (h1 : 10 ≤ n) (h2 : n < 100) :
    natRender n = [toDigitChar (n / 10), toDigitChar (n % 10)] := by
  unfold natRender; rw [natDigitsRev_two h1 h2]; rfl

theorem natRender_three {n : ℕ} (h1 : 100 ≤ n) (h2 : n < 1000) :
    natRender n = [toDigitChar (n / 10 / 10), toDigitChar (n / 10 % 10), toDigitChar (n % 10)] := by
  unfold natRender; rw [natDigitsRev_three h1 h2]; rfl

theorem natPad2_eq {n : ℕ} (h : n < 100) :
    ∃ a b, natPad2 n = [a, b] ∧ a.isDigit = true ∧ b.isDigit = true ∧ 10 * dv a + dv b = n := by
  by_cases h10 : n < 10
  · refine ⟨'0', toDigitChar n, ?_, by decide, toDigitChar_isDigit h10, ?_⟩
    · unfold natPad2; rw [if_pos h10, natRender_lt10 h10]
    · have h0 : dv '0' = 0 := by decide
      rw [h0, dv_toDigitChar h10]; omega
  · refine ⟨toDigitChar (n / 10), toDigitChar (n % 10), ?_,
      toDigitChar_isDigit (by omega), toDigitChar_isDigit (by omega), ?_⟩
    · unfold natPad2; rw [if_neg h10, natRender_two (by omega) h]
    · rw [dv_toDigitChar (by omega), dv_toDigitChar (by omega)]; omega

theorem natPad3_eq {n : ℕ} (h : n < 1000) :
    ∃ a b c, natPad3 n = [a, b, c] ∧ a.isDigit = true ∧ b.isDigit = true ∧ c.isDigit = true ∧
      100 * dv a + 10 * dv b + dv c = n := by
  by_cases h10 : n < 10
  · refine ⟨'0', '0', toDigitChar n, ?_, by decide, by decide, toDigitChar_isDigit h10, ?_⟩
    · unfold natPad3; rw [if_pos h10, natRender_lt10 h10]
    · have h0 : dv '0' = 0 := by decide
      rw [h0, dv_toDigitChar h10]; omega
  · by_cases h100 : n < 100
    · refine ⟨'0', toDigitChar (n / 10), toDigitChar (n % 10), ?_, by decide,
        toDigitChar_isDigit (by omega), toDigitChar_isDigit (by omega), ?_⟩
      · unfold natPad3; rw [if_neg h10, if_pos h100, natRender_two (by omega) h100]
      · have h0 : dv '0' = 0 := by decide
        rw [h0, dv_toDigitChar (by omega), dv_toDigitChar (by omega)]; omega
    · refine ⟨toDigitChar (n / 10 / 10), toDigitChar (n / 10 % 10), toDigitChar (n % 10), ?_,
        toDigitChar_isDigit (by omega), toDigitChar_isDigit (by omega),
        toDigitChar_isDigit (by omega), ?_⟩
      · unfold natPad3; rw [if_neg h10, if_neg h100, natRender_three (by omega) h]
      · rw [dv_toDigitChar (by omega), dv_toDigitChar (by omega), dv_toDigitChar (by omega)]
        omega

theorem intPad2_of_nonneg {z : ℤ} (h : 0 ≤ z) : intPad2 z = natPad2 z.toNat := by
  unfold intPad2; rw [if_neg (not_lt.2 h)]

theorem intPad3_of_nonneg {z : ℤ} (h : 0 ≤ z) : intPad3 z = natPad3 z.toNat := by
  unfold intPad3; rw [if_neg (not_lt.2 h)]

theorem digitsVal_pair (a b : Char) : digitsVal [a, b] = 10 * dv a + dv b := by
  have e : digitsVal [a, b] = 10 * (10 * 0 + dv a) + dv b := rfl
  omega

theorem digitsVal_triple (a b c : Char) :
    digitsVal [a, b, c] = 100 * dv a + 10 * dv b + dv c := by
  have e : digitsVal [a, b, c] = 10 * (10 * (10 * 0 + dv a) + dv b) + dv c := rfl
  omega

/-!
## Character-class and string lemmas
-/

theorem ne_of_isDigit {c : Char} (h : c.isDigit = true) :
    c ≠ ',' ∧ c ≠ ':' ∧ c ≠ '.' ∧ c ≠ '-' ∧ c ≠ '+' ∧ c ≠ '\n' ∧ pySpace c = false := by
  refine ⟨?_, ?_, ?_, ?_, ?_, ?_, ?_⟩
  · intro e; subst e; exact absurd h (by decide)
  · intro e; subst e; exact absurd h (by decide)
  · intro e; subst e; exact absurd h (by decide)
  · intro e; subst e; exact absurd h (by decide)
  · intro e; subst e; exact absurd h (by decide)
  · intro e; subst e; exact absurd h (by decide)
  · by_contra hx
    have hx' : pySpace c = true := by revert hx; cases pySpace c <;> simp
    simp only [pySpace, Bool.or_eq_true, decide_eq_true_eq] at hx'
    rcases hx' with ((((h1 | h1) | h1) | h1) | h1) | h1 <;>
      (subst h1; exact absurd h (by decide))

theorem dropWhile_eq_self {α : Type} {p : α → Bool} {l : List α}
    (h : ∀ c ∈ l, p c = false) : l.dropWhile p = l := by
  cases l with
  | nil => rfl
  | cons c cs => simp [List.dropWhile_cons, h c (List.mem_cons_self c cs)]

theorem pyStrip_eq_self {l : List Char} (h : ∀ c ∈ l, pySpace c = false) : pyStrip l = l := by
  unfold pyStrip
  rw [dropWhile_eq_self h,
    dropWhile_eq_self (fun c hc => h c (List.mem_reverse.1 hc)), List.reverse_reverse]

theorem takeWhile_all_append {α : Type} {p : α → Bool} {ds : List α}
    (h : ∀ c ∈ ds, p c = true) {x : α} (hx : p x = false) (r : List α) :
    (ds ++ x :: r).takeWhile p = ds := by
  induction ds with
  | nil => simp [List.takeWhile_cons, hx]
  | cons c cs ih =>
    have hc := h c (List.mem_cons_self c cs)
    simp [List.takeWhile_cons, hc, ih (fun d hd => h d (List.mem_cons_of_mem _ hd))]

theorem dropWhile_all_append {α : Type} {p : α → Bool} {ds : List α}
    (h : ∀ c ∈ ds, p c = true) {x : α} (hx : p x = false) (r : List α) :
    (ds ++ x :: r).dropWhile p = x :: r := by
  induction ds with
  | nil => simp [List.dropWhile_cons, hx]
  | cons c cs ih =>
    have hc := h c (List.mem_cons_self c cs)
    simp [List.dropWhile_cons, hc, ih (fun d hd => h d (List.mem_cons_of_mem _ hd))]

theorem pySplitCh_no_sep {sep : Char} {l : List Char} (h : ∀ c ∈ l, c ≠ sep) :
    pySplitCh sep l = [l] := by
  induction l with
  | nil => rfl
  | cons c cs ih =>
    rw [pySplitCh, if_neg (h c (List.mem_cons_self c cs)),
      ih (fun d hd => h d (List.mem_cons_of_mem _ hd))]

theorem pySplitCh_append {sep : Char} {xs : List Char} (h : ∀ c ∈ xs, c ≠ sep)
    (rest : List Char) :
    pySplitCh sep (xs ++ sep :: rest) = xs :: pySplitCh sep rest := by
  induction xs with
  | nil => simp [pySplitCh]
  | cons x xs ih =>
    have hx := h x (List.mem_cons_self x xs)
    rw [List.cons_append, pySplitCh, if_neg hx,
      ih (fun d hd => h d (List.mem_cons_of_mem _ hd))]

/-- Parsing a twelve-character time code in the strict `HH:MM:SS,mmm` grammar
succeeds with the value `hours*3600 + minutes*60 + seconds + ms/1000`. -/
theorem parse_srt_time_digits {a b c d e f g h i : Char}
    (ha : a.isDigit = true) (hb : b.isDigit = true) (hc : c.isDigit = true)
    (hd : d.isDigit = true) (he : e.isDigit = true) (hf : f.isDigit = true)
    (hg : g.isDigit = true) (hh : h.isDigit = true) (hi : i.isDigit = true) :
    parse_srt_time [a, b, ':', c, d, ':', e, f, ',', g, h, i] =
      some (((10 * dv a + dv b : ℕ) : ℚ) * 3600 + ((10 * dv c + dv d : ℕ) : ℚ) * 60 +
        (((10 * dv e + dv f : ℕ) : ℚ) + ((100 * dv g + 10 * dv h + dv i : ℕ) : ℚ) / 1000)) := by
  have hrepl : pyReplace ',' '.' [a, b, ':', c, d, ':', e, f, ',', g, h, i] =
      [a, b, ':', c, d, ':', e, f, '.', g, h, i] := by
    simp [pyReplace, (ne_of_isDigit ha).1, (ne_of_isDigit hb).1, (ne_of_isDigit hc).1,
      (ne_of_isDigit hd).1, (ne_of_isDigit he).1, (ne_of_isDigit hf).1,
      (ne_of_isDigit hg).1, (ne_of_isDigit hh).1, (ne_of_isDigit hi).1]
  have hsplit : pySplitCh ':' [a, b, ':', c, d, ':', e, f, '.', g, h, i] =
      [[a, b], [c, d], [e, f, '.', g, h, i]] := by
    have e1 : ([a, b, ':', c, d, ':', e, f, '.', g, h, i] : List Char) =
        [a, b] ++ ':' :: ([c, d] ++ ':' :: [e, f, '.', g, h, i]) := by simp
    rw [e1]
    rw [pySplitCh_append (by
      intro x hx
      simp only [List.mem_cons, List.not_mem_nil, or_false] at hx
      rcases hx with rfl | rfl
      exacts [(ne_of_isDigit ha).2.1, (ne_of_isDigit hb).2.1])]
    rw [pySplitCh_append (by
      intro x hx
      simp only [List.mem_cons, List.not_mem_nil, or_false] at hx
      rcases hx with rfl | rfl
      exacts [(ne_of_isDigit hc).2.1, (ne_of_isDigit hd).2.1])]
    rw [pySplitCh_no_sep (by
      intro x hx
      simp only [List.mem_cons, List.not_mem_nil, or_false] at hx
      rcases hx with rfl | rfl | rfl | rfl | rfl | rfl
      exacts [(ne_of_isDigit he).2.1, (ne_of_isDigit hf).2.1, by decide,
        (ne_of_isDigit hg).2.1, (ne_of_isDigit hh).2.1, (ne_of_isDigit hi).2.1])]
  have hint1 : pyIntOfStr [a, b] = some ((10 * dv a + dv b : ℕ) : ℤ) := by
    have hstrip : pyStrip [a, b] = [a, b] := pyStrip_eq_self (by
      intro x hx
      simp only [List.mem_cons, List.not_mem_nil, or_false] at hx
      rcases hx with rfl | rfl
      exacts [(ne_of_isDigit ha).2.2.2.2.2.2, (ne_of_isDigit hb).2.2.2.2.2.2])
    simp [pyIntOfStr, hstrip, (ne_of_isDigit ha).2.2.2.1, (ne_of_isDigit ha).2.2.2.2.1,
      ha, hb, digitsVal_pair]
  have hint2 : pyIntOfStr [c, d] = some ((10 * dv c + dv d : ℕ) : ℤ) := by
    have hstrip : pyStrip [c, d] = [c, d] := pyStrip_eq_self (by
      intro x hx
      simp only [List.mem_cons, List.not_mem_nil, or_false] at hx
      rcases hx with rfl | rfl
      exacts [(ne_of_isDigit hc).2.2.2.2.2.2, (ne_of_isDigit hd).2.2.2.2.2.2])
    simp [pyIntOfStr, hstrip, (ne_of_isDigit hc).2.2.2.1, (ne_of_isDigit hc).2.2.2.2.1,
      hc, hd, digitsVal_pair]
  have hflt : pyFloatOfStr [e, f, '.', g, h, i] =
      some (((10 * dv e + dv f : ℕ) : ℚ) +
        ((100 * dv g + 10 * dv h + dv i : ℕ) : ℚ) / 1000) := by
    have hstrip : pyStrip [e, f, '.', g, h, i] = [e, f, '.', g, h, i] := pyStrip_eq_self (by
      intro x hx
      simp only [List.mem_cons, List.not_mem_nil, or_false] at hx
      rcases hx with rfl | rfl | rfl | rfl | rfl | rfl
      exacts [(ne_of_isDigit he).2.2.2.2.2.2, (ne_of_isDigit hf).2.2.2.2.2.2, by decide,
        (ne_of_isDigit hg).2.2.2.2.2.2, (ne_of_isDigit hh).2.2.2.2.2.2,
        (ne_of_isDigit hi).2.2.2.2.2.2])
    have e2 : ([e, f, '.', g, h, i] : List Char) = [e, f] ++ '.' :: [g, h, i] := by simp
    have hef : ∀ x ∈ ([e, f] : List Char), x.isDigit = true := by
      intro x hx
      simp only [List.mem_cons, List.not_mem_nil, or_false] at hx
      rcases hx with rfl | rfl
      exacts [he, hf]
    have htw : ([e, f, '.', g, h, i] : List Char).takeWhile Char.isDigit = [e, f] := by
      rw [e2]; exact takeWhile_all_append hef (by decide) _
    have hdw : ([e, f, '.', g, h, i] : List Char).dropWhile Char.isDigit = '.' :: [g, h, i] := by
      rw [e2]; exact dropWhile_all_append hef (by decide) _
    simp [pyFloatOfStr, hstrip, (ne_of_isDigit he).2.2.2.1, (ne_of_isDigit he).2.2.2.2.1,
      pyFloatCore, htw, hdw, hg, hh, hi, digitsVal_pair, digitsVal_triple]
  rw [parse_srt_time, hrepl, hsplit]
  simp [hint1, hint2, hflt]

/-!
## Shape of the formatted time code
-/

/-- The four fields computed by `format_srt_time`, in closed floor form:
hours `⌊s/3600⌋`, minutes `⌊s/60⌋ - 60⌊s/3600⌋`, seconds `⌊s⌋ - 60⌊s/60⌋`,
milliseconds `⌊fract s * 1000⌋`.  Holds for every real input. -/
theorem format_srt_time_eq (s : ℚ) :
    format_srt_time s = intPad2 ⌊s / 3600⌋ ++ ':' :: intPad2 (⌊s / 60⌋ - 60 * ⌊s / 3600⌋) ++
      ':' :: intPad2 (⌊s⌋ - 60 * ⌊s / 60⌋) ++ ',' :: intPad3 ⌊Int.fract s * 1000⌋ := by
  have hsec_nonneg : 0 ≤ pyMod s 60 := pyMod_nonneg s (by norm_num)
  have hhours : pyInt (pyFloorDiv s 3600) = ⌊s / 3600⌋ := pyInt_intCast _
  have hmin : pyInt (pyFloorDiv (pyMod s 3600) 60) = ⌊s / 60⌋ - 60 * ⌊s / 3600⌋ := by
    have hbase : pyInt (pyFloorDiv (pyMod s 3600) 60) = ⌊pyMod s 3600 / 60⌋ := pyInt_intCast _
    rw [hbase]
    have e1 : pyMod s 3600 / 60 = s / 60 - ((60 * ⌊s / 3600⌋ : ℤ) : ℚ) := by
      rw [pyMod_def]
      push_cast
      ring
    rw [e1, Int.floor_sub_int]
  have hss : pyInt (pyMod s 60) = ⌊s⌋ - 60 * ⌊s / 60⌋ := by
    rw [pyInt_of_nonneg hsec_nonneg]
    have e1 : pyMod s 60 = s - ((60 * ⌊s / 60⌋ : ℤ) : ℚ) := by
      rw [pyMod_def]
      push_cast
      ring
    rw [e1, Int.floor_sub_int]
  have hms : pyInt ((pyMod s 60 - (pyInt (pyMod s 60) : ℚ)) * 1000) =
      ⌊Int.fract s * 1000⌋ := by
    have e1 : pyMod s 60 - (pyInt (pyMod s 60) : ℚ) = Int.fract s := by
      rw [pyInt_of_nonneg hsec_nonneg]
      have e2 : pyMod s 60 = s - ((60 * ⌊s / 60⌋ : ℤ) : ℚ) := by
        rw [pyMod_def]
        push_cast
        ring
      rw [e2, Int.floor_sub_int, Int.fract]
      push_cast
      ring
    rw [e1]
    exact pyInt_of_nonneg (mul_nonneg (Int.fract_nonneg _) (by norm_num))
  rw [format_srt_time]
  rw [hhours, hmin, hms, hss]

/-- Floors through division by 60 and 3600, in literal form. -/
theorem floor_div_60 (s : ℚ) : ⌊s / 60⌋ = ⌊s⌋ / 60 := by
  have h := floor_div_natCast s 60 (by norm_num)
  norm_num at h
  exact h

theorem floor_div_3600 (s : ℚ) : ⌊s / 3600⌋ = ⌊s⌋ / 3600 := by
  have h := floor_div_natCast s 3600 (by norm_num)
  norm_num at h
  exact h

/-!
## Claims C4 and C10: the formatter
-/

/-- C4 (counterexample): at `s = 3/5000` the code truncates the fractional
part to milliseconds `000`, while the claimed rounding would give `001`. -/
theorem srt_format_truncates_not_rounds :
    format_srt_time (3 / 5000) = "00:00:00,000".data ∧
      format_srt_time_spec (3 / 5000) = "00:00:00,001".data := by
  constructor <;> decide

/-- C4 (amended): for non-negative input, `format_time_code` renders
hours `⌊s/3600⌋`, minutes `(⌊s⌋/60) mod 60`, seconds `⌊s⌋ mod 60` — all
zero-padded to two digits, hours unbounded — and the milliseconds field is
`⌊(s - ⌊s⌋) * 1000⌋` (truncation, not rounding to nearest), zero-padded to
three digits. -/
theorem srt_format_fields (s : ℚ) (h : 0 ≤ s) :
    format_srt_time s = intPad2 ⌊s / 3600⌋ ++ ':' :: intPad2 ((⌊s⌋ / 60) % 60) ++
      ':' :: intPad2 (⌊s⌋ % 60) ++ ',' :: intPad3 ⌊(s - (⌊s⌋ : ℚ)) * 1000⌋ := by
  have _hs := h
  rw [format_srt_time_eq]
  have e1 : ⌊s / 60⌋ - 60 * ⌊s / 3600⌋ = (⌊s⌋ / 60) % 60 := by
    rw [floor_div_60, floor_div_3600]; omega
  have e2 : ⌊s⌋ - 60 * ⌊s / 60⌋ = ⌊s⌋ % 60 := by
    rw [floor_div_60]; omega
  rw [e1, e2, Int.fract]

/-- C4 (witness). -/
theorem srt_format_fields_witness :
    format_srt_time (3 / 2) =
      intPad2 ⌊(3 / 2 : ℚ) / 3600⌋ ++ ':' :: intPad2 ((⌊(3 / 2 : ℚ)⌋ / 60) % 60) ++
        ':' :: intPad2 (⌊(3 / 2 : ℚ)⌋ % 60) ++
        ',' :: intPad3 ⌊((3 / 2 : ℚ) - (⌊(3 / 2 : ℚ)⌋ : ℚ)) * 1000⌋ :=
  srt_format_fields (3 / 2) (by norm_num)

/-- C10 (counterexample): negative input does not fail; the code formats
`-1` seconds as `-1:59:59,000` instead of raising `ValueError`. -/
theorem srt_format_negative_returns : format_srt_time (-1) = "-1:59:59,000".data := by
  decide

/-- C10 (amended): for negative input, `format_time_code` does not fail: it
returns a formatted string whose (floor-division) hours field is negative,
so the output starts with a minus sign. -/
theorem srt_format_negative_sign (s : ℚ) (h : s < 0) :
    (format_srt_time s).head? = some '-' := by
  rw [format_srt_time_eq]
  have hneg : ⌊s / 3600⌋ < 0 := by
    have hq : s / 3600 < 0 := div_neg_of_neg_of_pos h (by norm_num)
    exact Int.floor_lt.2 (by exact_mod_cast hq)
  rw [intPad2, if_pos hneg]
  simp

/-- C10 (witness). -/
theorem srt_format_negative_sign_witness : (format_srt_time (-1)).head? = some '-' :=
  srt_format_negative_sign (-1) (by norm_num)

/-!
## Claim C3: time-code round trip
-/

/-- C3: for every real `s` in `[0, 359999.999]`,
`parse_time_code (format_time_code s)` succeeds with a value within one
millisecond of `s`. -/
theorem srt_timecode_roundtrip (s : ℚ) (h0 : 0 ≤ s) (h1 : s ≤ 359999999 / 1000) :
    ∃ v : ℚ, parse_srt_time (format_srt_time s) = some v ∧ |v - s| ≤ 1 / 1000 := by
  have hH0 : 0 ≤ ⌊s / 3600⌋ := Int.floor_nonneg.2 (by positivity)
  have hH100 : ⌊s / 3600⌋ < 100 := by
    apply Int.floor_lt.2
    rw [div_lt_iff₀ (by norm_num : (0 : ℚ) < 3600)]
    push_cast
    linarith
  have h60 := floor_div_60 s
  have h3600 := floor_div_3600 s
  have hM0 : 0 ≤ ⌊s / 60⌋ - 60 * ⌊s / 3600⌋ := by rw [h60, h3600]; omega
  have hM60 : ⌊s / 60⌋ - 60 * ⌊s / 3600⌋ < 60 := by rw [h60, h3600]; omega
  have hSS0 : 0 ≤ ⌊s⌋ - 60 * ⌊s / 60⌋ := by rw [h60]; omega
  have hSS60 : ⌊s⌋ - 60 * ⌊s / 60⌋ < 60 := by rw [h60]; omega
  have hMS0 : 0 ≤ ⌊Int.fract s * 1000⌋ :=
    Int.floor_nonneg.2 (mul_nonneg (Int.fract_nonneg s) (by norm_num))
  have hMS1000 : ⌊Int.fract s * 1000⌋ < 1000 := by
    apply Int.floor_lt.2
    have := Int.fract_lt_one s
    push_cast
    linarith
  obtain ⟨a, b, hab, haD, hbD, hvab⟩ := natPad2_eq (show ⌊s / 3600⌋.toNat < 100 by omega)
  obtain ⟨c, d, hcd, hcD, hdD, hvcd⟩ :=
    natPad2_eq (show (⌊s / 60⌋ - 60 * ⌊s / 3600⌋).toNat < 100 by omega)
  obtain ⟨e, f, hef, heD, hfD, hvef⟩ :=
    natPad2_eq (show (⌊s⌋ - 60 * ⌊s / 60⌋).toNat < 100 by omega)
  obtain ⟨g, h', i, hghi, hgD, hhD, hiD, hvghi⟩ :=
    natPad3_eq (show ⌊Int.fract s * 1000⌋.toNat < 1000 by omega)
  have hfmt : format_srt_time s = [a, b, ':', c, d, ':', e, f, ',', g, h', i] := by
    rw [format_srt_time_eq, intPad2_of_nonneg hH0, intPad2_of_nonneg hM0,
      intPad2_of_nonneg hSS0, intPad3_of_nonneg hMS0, hab, hcd, hef, hghi]
    simp
  refine ⟨_, by rw [hfmt]; exact parse_srt_time_digits haD hbD hcD hdD heD hfD hgD hhD hiD, ?_⟩
  rw [hvab, hvcd, hvef, hvghi]
  rw [show ((⌊s / 3600⌋.toNat : ℕ) : ℚ) = ((⌊s / 3600⌋ : ℤ) : ℚ) by
    exact_mod_cast congrArg Int.cast (Int.toNat_of_nonneg hH0)]
  rw [show (((⌊s / 60⌋ - 60 * ⌊s / 3600⌋).toNat : ℕ) : ℚ) =
      ((⌊s / 60⌋ - 60 * ⌊s / 3600⌋ : ℤ) : ℚ) by
    exact_mod_cast congrArg Int.cast (Int.toNat_of_nonneg hM0)]
  rw [show (((⌊s⌋ - 60 * ⌊s / 60⌋).toNat : ℕ) : ℚ) = ((⌊s⌋ - 60 * ⌊s / 60⌋ : ℤ) : ℚ) by
    exact_mod_cast congrArg Int.cast (Int.toNat_of_nonneg hSS0)]
  rw [show ((⌊Int.fract s * 1000⌋.toNat : ℕ) : ℚ) = ((⌊Int.fract s * 1000⌋ : ℤ) : ℚ) by
    exact_mod_cast congrArg Int.cast (Int.toNat_of_nonneg hMS0)]
  have hfl : ((⌊Int.fract s * 1000⌋ : ℤ) : ℚ) ≤ Int.fract s * 1000 :=
    Int.floor_le (Int.fract s * 1000)
  have hfl2 : Int.fract s * 1000 < ((⌊Int.fract s * 1000⌋ : ℤ) : ℚ) + 1 :=
    Int.lt_floor_add_one (Int.fract s * 1000)
  rw [abs_le]
  rw [Int.fract] at hfl hfl2 ⊢
  push_cast at hfl hfl2 ⊢
  constructor <;> linarith

/-- C3 (witness). -/
theorem srt_timecode_roundtrip_witness :
    ∃ v : ℚ, parse_srt_time (format_srt_time (3 / 2)) = some v ∧ |v - 3 / 2| ≤ 1 / 1000 :=
  srt_timecode_roundtrip (3 / 2) (by norm_num) (by norm_num)

/-!
## Claim C5: the time-code parser's accepted language
-/

/-- C5 (counterexample): `parse_time_code` accepts `"0:0:1,5"` — a string
outside the exact `HH:MM:SS,mmm` grammar — returning `1.5` instead of
failing with `FormatError`. -/
theorem srt_parse_accepts_nongrammar :
    parse_srt_time "0:0:1,5".data = some (3 / 2) ∧
      matchesTimeGrammar "0:0:1,5".data = false := by
  constructor <;> decide

/-- C5 (amended): every string in the exact `HH:MM:SS,mmm` grammar is
accepted with value `hours*3600 + minutes*60 + seconds.milliseconds`, but
the grammar does not characterise rejection: strings outside it can be
accepted too (see the counterexample). -/
theorem srt_parse_grammar_value (a b c d e f g h i : Char)
    (ha : a.isDigit = true) (hb : b.isDigit = true) (hc : c.isDigit = true)
    (hd : d.isDigit = true) (he : e.isDigit = true) (hf : f.isDigit = true)
    (hg : g.isDigit = true) (hh : h.isDigit = true) (hi : i.isDigit = true) :
    matchesTimeGrammar [a, b, ':', c, d, ':', e, f, ',', g, h, i] = true ∧
      parse_srt_time [a, b, ':', c, d, ':', e, f, ',', g, h, i] =
        some (((10 * dv a + dv b : ℕ) : ℚ) * 3600 + ((10 * dv c + dv d : ℕ) : ℚ) * 60 +
          (((10 * dv e + dv f : ℕ) : ℚ) +
            ((100 * dv g + 10 * dv h + dv i : ℕ) : ℚ) / 1000)) := by
  refine ⟨?_, parse_srt_time_digits ha hb hc hd he hf hg hh hi⟩
  simp [matchesTimeGrammar, ha, hb, hc, hd, he, hf, hg, hh, hi]

/-- C5 (witness): the grammar string `"01:02:03,450"` parses to
`3723.45` seconds. -/
theorem srt_parse_grammar_value_witness :
    matchesTimeGrammar ['0', '1', ':', '0', '2', ':', '0', '3', ',', '4', '5', '0'] = true ∧
      parse_srt_time ['0', '1', ':', '0', '2', ':', '0', '3', ',', '4', '5', '0'] =
        some (((10 * dv '0' + dv '1' : ℕ) : ℚ) * 3600 +
          ((10 * dv '0' + dv '2' : ℕ) : ℚ) * 60 +
          (((10 * dv '0' + dv '3' : ℕ) : ℚ) +
            ((100 * dv '4' + 10 * dv '5' + dv '0' : ℕ) : ℚ) / 1000)) :=
  srt_parse_grammar_value '0' '1' '0' '2' '0' '3' '4' '5' '0'
    (by decide) (by decide) (by decide) (by decide) (by decide) (by decide)
    (by decide) (by decide) (by decide)

/-!
## Parser machinery: how the scan behaves on well-formed documents
-/

theorem takeIdx_append {ds : List Char} (h : ∀ c ∈ ds, c.isDigit = true) (hne : ds ≠ [])
    (r : List Char) : takeIdx (ds ++ '\n' :: r) = some (ds, r) := by
  unfold takeIdx
  rw [takeWhile_all_append h (by decide) r, dropWhile_all_append h (by decide) r]
  simp [hne]

theorem matchAt_not_digit {c : Char} (h : c.isDigit = false) (l : List Char) :
    matchAt (c :: l) = none := by
  unfold matchAt takeIdx
  simp [List.takeWhile_cons, List.dropWhile_cons, h]

theorem checkTime_renderTC {t : TimeCode} (h : digitsTC t) (rest : List Char) :
    checkTime (renderTC t ++ rest) = some (renderTC t, rest) := by
  obtain ⟨h1, h2, h3, h4, h5, h6, h7, h8, h9⟩ := h
  simp [renderTC, checkTime, h1, h2, h3, h4, h5, h6, h7, h8, h9]

theorem expectLit_append (lit r : List Char) : expectLit lit (lit ++ r) = some r := by
  induction lit with
  | nil => rfl
  | cons c cs ih => simp [expectLit, ih]

theorem lazyText_eq (l : List Char) :
    lazyText l = if lookaheadHit l then ([], l)
      else match l with
        | [] => ([], [])
        | c :: cs => (c :: (lazyText cs).1, (lazyText cs).2) := by
  cases l <;> rfl

theorem lazyText_append_eq (l : List Char) : (lazyText l).1 ++ (lazyText l).2 = l := by
  induction l with
  | nil => simp [lazyText]
  | cons c cs ih =>
    unfold lazyText
    split
    · simp
    · simpa using ih

theorem lazyText_len (l : List Char) : (lazyText l).2.length ≤ l.length := by
  have h := congrArg List.length (lazyText_append_eq l)
  simp only [List.length_append] at h
  omega

theorem lazyText_of_free {txt suf : List Char} (hb : lookaheadHit suf = true)
    (hfree : ∀ t', t' ≠ [] → t' <:+ txt → lookaheadHit (t' ++ suf) = false) :
    lazyText (txt ++ suf) = (txt, suf) := by
  induction txt with
  | nil => rw [List.nil_append, lazyText_eq, if_pos hb]
  | cons c cs ih =>
    have hx : lookaheadHit ((c :: cs) ++ suf) = false :=
      hfree (c :: cs) (by simp) (List.suffix_refl _)
    rw [List.cons_append] at hx
    rw [List.cons_append, lazyText_eq, if_neg (by simp [hx])]
    have ihe := ih (fun t' hne hsuf =>
      hfree t' hne (hsuf.trans (List.suffix_cons c cs)))
    simp [ihe]

/-- Inside a good text (no blank line, no trailing newline), the lookahead
never fires before the end of the text. -/
theorem goodTxt_free {txt : List Char} (hinf : ¬ ['\n', '\n'] <:+: txt)
    (hlast : txt.getLast? ≠ some '\n') {suf : List Char}
    (hsuf : suf = [] ∨ ∃ r, suf = '\n' :: '\n' :: r) :
    ∀ t', t' ≠ [] → t' <:+ txt → lookaheadHit (t' ++ suf) = false := by
  intro t' hne hsuffix
  match t', hne with
  | x :: u, _ =>
    by_cases hx : x = '\n'
    · subst hx
      cases u with
      | cons v u' =>
        by_cases hv : v = '\n'
        · subst hv
          obtain ⟨pre, hpre⟩ := hsuffix
          exact absurd ⟨pre, u', by rw [← hpre]; simp⟩ hinf
        · cases u' with
          | nil =>
            rcases hsuf with rfl | ⟨r, rfl⟩ <;>
              simp [lookaheadHit, List.takeWhile_cons, hv]
          | cons w u'' =>
            simp [lookaheadHit, hv]
      | nil =>
        obtain ⟨pre, hpre⟩ := hsuffix
        have : txt.getLast? = some '\n' := by rw [← hpre]; exact List.getLast?_concat _
        exact absurd this hlast
    · cases hus : u ++ suf with
      | nil => simp only [List.cons_append, hus]; simp [lookaheadHit, hx]
      | cons y v => simp only [List.cons_append, hus]; simp [lookaheadHit, hx]

/-- A successful anchored match on a well-formed block followed by a
boundary suffix captures exactly the block's fields and resumes at the
suffix. -/
theorem matchAt_render {b : WFBlock} (hb : goodBlock b) {suf : List Char}
    (hsuf : suf = [] ∨ ∃ r, suf = '\n' :: '\n' :: r) (hhit : lookaheadHit suf = true) :
    matchAt (renderBlock b ++ suf) = some (blockMatch b, suf) := by
  obtain ⟨hne, hdig, ht1, ht2, htne, hinf, hlast⟩ := hb
  have e : renderBlock b ++ suf =
      b.idx ++ '\n' ::
        (renderTC b.t1 ++ (arrowLit ++ (renderTC b.t2 ++ '\n' :: (b.txt ++ suf)))) := by
    simp [renderBlock, List.append_assoc]
  rw [e]
  have hlazy : lazyText (b.txt ++ suf) = (b.txt, suf) :=
    lazyText_of_free hhit (goodTxt_free hinf hlast hsuf)
  simp only [matchAt, takeIdx_append hdig hne, checkTime_renderTC ht1,
    expectLit_append, checkTime_renderTC ht2, hlazy, blockMatch]

theorem takeIdx_len {l ds r : List Char} (h : takeIdx l = some (ds, r)) :
    r.length < l.length := by
  unfold takeIdx at h
  cases hdw : l.dropWhile Char.isDigit with
  | nil =>
    simp only [hdw] at h
    exact Option.noConfusion h
  | cons c r' =>
    simp only [hdw] at h
    split at h
    · simp only [Option.some.injEq, Prod.mk.injEq] at h
      obtain ⟨rfl, rfl⟩ := h
      have hlen := congrArg List.length (List.takeWhile_append_dropWhile (p := Char.isDigit) (l := l))
      rw [hdw] at hlen
      simp only [List.length_append, List.length_cons] at hlen
      omega
    · exact absurd h (by simp)

theorem checkTime_len {l t r : List Char} (h : checkTime l = some (t, r)) :
    r.length < l.length := by
  unfold checkTime at h
  split at h
  · split at h
    · simp only [Option.some.injEq, Prod.mk.injEq] at h
      obtain ⟨rfl, rfl⟩ := h
      simp only [List.length_cons]
      omega
    · exact absurd h (by simp)
  · exact absurd h (by simp)

theorem expectLit_len (lit : List Char) : ∀ {l r : List Char},
    expectLit lit l = some r → r.length ≤ l.length := by
  induction lit with
  | nil =>
    intro l r h
    unfold expectLit at h
    simp only [Option.some.injEq] at h
    subst h
    exact le_rfl
  | cons c cs ih =>
    intro l r h
    cases l with
    | nil => exact absurd h (by simp [expectLit])
    | cons x xs =>
      unfold expectLit at h
      split at h
      · have := ih h
        simp only [List.length_cons]
        omega
      · exact absurd h (by simp)

theorem matchAt_length {l : List Char} {m : RawMatch} {rest : List Char}
    (h : matchAt l = some (m, rest)) : rest.length < l.length := by
  unfold matchAt at h
  cases h1 : takeIdx l with
  | none =>
    simp only [h1] at h
    exact Option.noConfusion h
  | some pr1 =>
    obtain ⟨ds, r1⟩ := pr1
    simp only [h1] at h
    cases h2 : checkTime r1 with
    | none =>
      simp only [h2] at h
      exact Option.noConfusion h
    | some pr2 =>
      obtain ⟨t1, r2⟩ := pr2
      simp only [h2] at h
      cases h3 : expectLit arrowLit r2 with
      | none =>
        simp only [h3] at h
        exact Option.noConfusion h
      | some r3 =>
        simp only [h3] at h
        cases h4 : checkTime r3 with
        | none =>
          simp only [h4] at h
          exact Option.noConfusion h
        | some pr4 =>
          obtain ⟨t2, r4⟩ := pr4
          simp only [h4] at h
          split at h
          · simp only [Option.some.injEq, Prod.mk.injEq] at h
            obtain ⟨-, rfl⟩ := h
            have l1 := takeIdx_len h1
            have l2 := checkTime_len h2
            have l3 := expectLit_len arrowLit h3
            have l4 := checkTime_len h4
            simp only [List.length_cons] at l4
            refine lt_of_le_of_lt (lazyText_len _) ?_
            omega
          · exact absurd h (by simp)

theorem scanFuel_succ (f : ℕ) (l : List Char) :
    scanFuel (f + 1) l =
      match matchAt l with
      | some (m, rest) => m :: scanFuel f rest
      | none => match l with | [] => [] | _ :: t => scanFuel f t := rfl

theorem scanFuel_congr : ∀ (f g : ℕ) (l : List Char), l.length < f → l.length < g →
    scanFuel f l = scanFuel g l := by
  intro f
  induction f with
  | zero => intro g l hf; omega
  | succ f ih =>
    intro g l hf hg
    cases g with
    | zero => omega
    | succ g =>
      show scanFuel (f + 1) l = scanFuel (g + 1) l
      rw [scanFuel_succ, scanFuel_succ]
      cases hm : matchAt l with
      | some pr =>
        obtain ⟨m, rest⟩ := pr
        have hlen := matchAt_length hm
        simp only [hm]
        exact congrArg (m :: ·) (ih g rest (by omega) (by omega))
      | none =>
        cases l with
        | nil => simp [hm]
        | cons c t =>
          simp only [hm, List.length_cons] at hf hg ⊢
          exact ih g t (by omega) (by omega)

theorem scanSRT_nil : scanSRT [] = [] := rfl

theorem scanSRT_match {l : List Char} {m : RawMatch} {rest : List Char}
    (h : matchAt l = some (m, rest)) : scanSRT l = m :: scanSRT rest := by
  unfold scanSRT
  have h1 : scanFuel (l.length + 1) l = m :: scanFuel l.length rest := by
    rw [scanFuel_succ]
    simp [h]
  rw [h1, scanFuel_congr l.length (rest.length + 1) rest (matchAt_length h) (by omega)]

theorem scanSRT_skip {c : Char} {t : List Char} (h : matchAt (c :: t) = none) :
    scanSRT (c :: t) = scanSRT t := by
  unfold scanSRT
  show scanFuel ((c :: t).length + 1) (c :: t) = scanFuel (t.length + 1) t
  rw [scanFuel_succ]
  simp [h]

theorem renderDoc_cons_shape (b : WFBlock) (bs : List WFBlock) :
    ∃ z, renderDoc (b :: bs) = b.idx ++ '\n' :: z := by
  cases bs with
  | nil =>
    exact ⟨renderTC b.t1 ++ arrowLit ++ renderTC b.t2 ++ '\n' :: b.txt,
      by simp [renderDoc, renderBlock]⟩
  | cons b' bs' =>
    refine ⟨renderTC b.t1 ++ arrowLit ++ renderTC b.t2 ++ '\n' :: b.txt ++
      '\n' :: '\n' :: renderDoc (b' :: bs'), ?_⟩
    simp [renderDoc, renderBlock]

/-- The lookahead fires at a blank line followed by the start of a good
block. -/
theorem lookaheadHit_sep {b : WFBlock} (hne : b.idx ≠ [])
    (hdig : ∀ c ∈ b.idx, c.isDigit = true) (bs : List WFBlock) :
    lookaheadHit ('\n' :: '\n' :: renderDoc (b :: bs)) = true := by
  obtain ⟨z, hz⟩ := renderDoc_cons_shape b bs
  rw [hz]
  simp only [lookaheadHit]
  rw [takeWhile_all_append hdig (by decide) z, dropWhile_all_append hdig (by decide) z]
  simp [headIsNl, hne]

/-- The scan of a document of good blocks yields exactly one match per
block, in order, with exactly the block's fields. -/
theorem scanSRT_renderDoc : ∀ (bs : List WFBlock), (∀ b ∈ bs, goodBlock b) →
    scanSRT (renderDoc bs) = bs.map blockMatch := by
  intro bs
  induction bs with
  | nil => intro _; rfl
  | cons b bs ih =>
    intro hgood
    have hb := hgood b (List.mem_cons_self b bs)
    cases bs with
    | nil =>
      have e : renderDoc [b] = renderBlock b ++ [] := by simp [renderDoc]
      rw [e, scanSRT_match (matchAt_render hb (Or.inl rfl) (by decide))]
      simp [scanSRT_nil]
    | cons b' bs' =>
      have hb' := hgood b' (List.mem_cons_of_mem _ (List.mem_cons_self b' bs'))
      have hsep : lookaheadHit ('\n' :: '\n' :: renderDoc (b' :: bs')) = true :=
        lookaheadHit_sep hb'.1 hb'.2.1 bs'
      have e : renderDoc (b :: b' :: bs') =
          renderBlock b ++ ('\n' :: '\n' :: renderDoc (b' :: bs')) := by
        simp [renderDoc]
      rw [e, scanSRT_match (matchAt_render hb (Or.inr ⟨_, rfl⟩) hsep)]
      rw [scanSRT_skip (matchAt_not_digit (by decide) _),
        scanSRT_skip (matchAt_not_digit (by decide) _)]
      rw [ih (fun x hx => hgood x (List.mem_cons_of_mem _ hx))]
      rfl

/-!
## Claims C1 and C2: the parser on documents
-/

/-- C1 (counterexample): in a document with one well-formed block and one
malformed trailing block, the malformed block is not skipped cleanly — its
text is absorbed into the well-formed entry, whose text is no longer
`"Hello"`. -/
theorem srt_scan_malformed_absorbed :
    (parseSRT malformedTailDoc).map (fun e => e.text) = ["Hello\n\njunk line".data] ∧
      "Hello\n\njunk line".data ≠ "Hello".data := by
  constructor <;> decide

/-- C1 (amended): on a document consisting of N well-formed cue blocks
separated by single blank lines, the parser emits exactly N entries, in
document order, with exactly each block's fields (text stripped).  Malformed
interleaved blocks are not always without effect: one that is not followed
by a blank line and a digit line is absorbed into the preceding entry's
text (see the counterexample). -/
theorem srt_scan_wellformed_blocks (bs : List WFBlock) (h : ∀ b ∈ bs, goodBlock b) :
    parseSRT (renderDoc bs) = bs.map blockEntry := by
  unfold parseSRT
  rw [scanSRT_renderDoc bs h]
  simp [blockMatch, blockEntry, List.map_map]

/-- C1 (witness): the two-block document of spec §8.7. -/
theorem srt_scan_wellformed_blocks_witness :
    parseSRT (renderDoc
      [⟨"1".data, ⟨'0', '0', '0', '0', '0', '1', '0', '0', '0'⟩,
          ⟨'0', '0', '0', '0', '0', '2', '5', '0', '0'⟩, "Hello world".data⟩,
        ⟨"2".data, ⟨'0', '0', '0', '0', '0', '3', '0', '0', '0'⟩,
          ⟨'0', '0', '0', '0', '0', '4', '0', '0', '0'⟩, "Line one\nLine two".data⟩]) =
      List.map blockEntry
        [⟨"1".data, ⟨'0', '0', '0', '0', '0', '1', '0', '0', '0'⟩,
            ⟨'0', '0', '0', '0', '0', '2', '5', '0', '0'⟩, "Hello world".data⟩,
          ⟨"2".data, ⟨'0', '0', '0', '0', '0', '3', '0', '0', '0'⟩,
            ⟨'0', '0', '0', '0', '0', '4', '0', '0', '0'⟩, "Line one\nLine two".data⟩] :=
  srt_scan_wellformed_blocks _ (by decide)

/-- C2: importing the literal two-cue document of spec §8.7 at `fps = 24`,
start-frame offset 1, yields exactly the placed entries
`(25, 61, "Hello world")` and `(73, 97, "Line one\nLine two")`. -/
theorem srt_import_literal_scenario :
    (importSRT 24 1 1 sampleDoc).map
        (fun l => l.map fun p => (p.start_frame, p.end_frame, p.text)) =
      some [(25, 61, "Hello world".data), (73, 97, "Line one\nLine two".data)] := by
  decide

/-!
## Claim C9: the emitted text
-/

theorem head?_dropWhile {α : Type} {p : α → Bool} :
    ∀ {l : List α} {c : α}, (l.dropWhile p).head? = some c → p c = false := by
  intro l
  induction l with
  | nil => intro c h; simp [List.dropWhile] at h
  | cons a t ih =>
    intro c h
    rw [List.dropWhile_cons] at h
    split at h
    · exact ih h
    · rename_i hpa
      simp only [List.head?_cons, Option.some.injEq] at h
      subst h
      rw [Bool.not_eq_true] at hpa
      exact hpa

theorem getLast?_dropWhile {α : Type} {p : α → Bool} :
    ∀ {l : List α}, l.dropWhile p ≠ [] → (l.dropWhile p).getLast? = l.getLast? := by
  intro l
  induction l with
  | nil => intro h; exact absurd rfl h
  | cons a t ih =>
    intro h
    by_cases hpa : p a = true
    · rw [List.dropWhile_cons, if_pos hpa] at h ⊢
      have htne : t ≠ [] := by
        intro e; subst e; simp [List.dropWhile] at h
      rw [ih h]
      cases t with
      | nil => exact absurd rfl htne
      | cons b t' => rw [List.getLast?_cons_cons]
    · rw [List.dropWhile_cons, if_neg hpa]

theorem pyStrip_head? {l : List Char} {c : Char} (h : (pyStrip l).head? = some c) :
    pySpace c = false := by
  unfold pyStrip at h
  rw [List.head?_reverse] at h
  have hne : (List.dropWhile pySpace l).reverse.dropWhile pySpace ≠ [] := by
    intro e; rw [e] at h; simp at h
  rw [getLast?_dropWhile hne, List.getLast?_reverse] at h
  exact head?_dropWhile h

theorem pyStrip_getLast? {l : List Char} {c : Char} (h : (pyStrip l).getLast? = some c) :
    pySpace c = false := by
  unfold pyStrip at h
  rw [List.getLast?_reverse] at h
  exact head?_dropWhile h

/-- C9 (counterexample): the leading and trailing spaces of the text line
`" Hello "` are removed by `text.strip()`, so the entry's text is `"Hello"`,
not the matched block's text with only blank lines trimmed. -/
theorem srt_text_strip_edge_spaces :
    (parseSRT edgeSpacesDoc).map (fun e => e.text) = ["Hello".data] ∧
      "Hello".data ≠ " Hello ".data := by
  constructor <;> decide

/-- C9 (amended): the text of every emitted entry is the matched text with
all leading and trailing whitespace characters (Python `str.strip`) removed
— including edge spaces on the first and last kept lines — so it never
starts or ends with a whitespace character (and may be empty). -/
theorem srt_text_stripped_ends (content : List Char) (e : SubtitleEntry)
    (he : e ∈ parseSRT content) (c : Char) :
    (e.text.head? = some c → pySpace c = false) ∧
      (e.text.getLast? = some c → pySpace c = false) := by
  unfold parseSRT at he
  obtain ⟨m, hm, rfl⟩ := List.mem_map.1 he
  exact ⟨fun h => pyStrip_head? h, fun h => pyStrip_getLast? h⟩

/-- C9 (witness). -/
theorem srt_text_stripped_ends_witness :
    ((⟨"1".data, "00:00:01,000".data, "00:00:02,500".data,
        "Hello world".data⟩ : SubtitleEntry).text.head? = some 'H' →
      pySpace 'H' = false) ∧
      ((⟨"1".data, "00:00:01,000".data, "00:00:02,500".data,
          "Hello world".data⟩ : SubtitleEntry).text.getLast? = some 'H' →
        pySpace 'H' = false) :=
  srt_text_stripped_ends sampleDoc
    ⟨"1".data, "00:00:01,000".data, "00:00:02,500".data, "Hello world".data⟩
    (by decide) 'H'

/-!
## Claim C8: time ordering is not validated, frame order follows time order
-/

/-- C8 (counterexample): a cue with start time after end time is imported
as-is; the placed entry has `start_time 5 > end_time 1` and
`start_frame 121 > end_frame 25`. -/
theorem srt_import_no_time_order_check :
    (importSRT 24 1 1 reversedTimesDoc).map
        (fun l => l.map fun p => (p.start_time, p.end_time, p.start_frame, p.end_frame)) =
      some [(5, 1, 121, 25)] ∧ ¬ ((5 : ℚ) ≤ 1) := by
  refine ⟨by decide, by norm_num⟩

theorem placeAll_mem {fps : ℚ} {off ch : ℤ} :
    ∀ {ms : List RawMatch} {out : List PlacedEntry}, placeAll fps off ch ms = some out →
      ∀ p ∈ out, ∃ m ∈ ms, placeEntry fps off ch m = some p := by
  intro ms
  induction ms with
  | nil =>
    intro out h p hp
    unfold placeAll at h
    simp only [Option.some.injEq] at h
    subst h
    simp at hp
  | cons m ms ih =>
    intro out h p hp
    unfold placeAll at h
    cases h1 : placeEntry fps off ch m with
    | none =>
      simp only [h1] at h
      exact Option.noConfusion h
    | some q =>
      simp only [h1] at h
      cases h2 : placeAll fps off ch ms with
      | none =>
        simp only [h2] at h
        exact Option.noConfusion h
      | some qs =>
        simp only [h2] at h
        simp only [Option.some.injEq] at h
        subst h
        rcases List.mem_cons.1 hp with rfl | hp'
        · exact ⟨m, List.mem_cons_self m ms, h1⟩
        · obtain ⟨m', hm', he⟩ := ih h2 p hp'
          exact ⟨m', List.mem_cons_of_mem _ hm', he⟩

/-- C8 (amended): the parser does not enforce `start_time ≤ end_time` (see
the counterexample), but whenever a placed entry does satisfy
`start_time ≤ end_time` and the frame rate is non-negative, its frames
satisfy `start_frame ≤ end_frame` (truncation toward zero is monotone). -/
theorem srt_import_frame_order (fps : ℚ) (hf : 0 ≤ fps) (off ch : ℤ)
    (content : List Char) (out : List PlacedEntry)
    (h : importSRT fps off ch content = some out) (p : PlacedEntry) (hp : p ∈ out)
    (hte : p.start_time ≤ p.end_time) : p.start_frame ≤ p.end_frame := by
  unfold importSRT at h
  split at h
  · exact Option.noConfusion h
  obtain ⟨m, hm, he⟩ := placeAll_mem h p hp
  unfold placeEntry at he
  cases hp1 : parse_srt_time m.t1 with
  | none =>
    simp only [hp1] at he
    exact Option.noConfusion he
  | some st =>
    simp only [hp1] at he
    cases hp2 : parse_srt_time m.t2 with
    | none =>
      simp only [hp2] at he
      exact Option.noConfusion he
    | some et =>
      simp only [hp2] at he
      simp only [Option.some.injEq] at he
      subst he
      have hte' : st ≤ et := hte
      have hmono : pyInt ((off : ℚ) + st * fps) ≤ pyInt ((off : ℚ) + et * fps) :=
        pyInt_mono (add_le_add_left (mul_le_mul_of_nonneg_right hte' hf) _)
      show pyInt ((off : ℚ) + st * fps) ≤
        pyInt ((off : ℚ) + st * fps) +
          (pyInt ((off : ℚ) + et * fps) - pyInt ((off : ℚ) + st * fps))
      omega

/-- C8 (witness). -/
theorem srt_import_frame_order_witness :
    (⟨"1".data, 1, 5 / 2, 25, 61, 1, "Hello world".data⟩ : PlacedEntry).start_frame ≤
      (⟨"1".data, 1, 5 / 2, 25, 61, 1, "Hello world".data⟩ : PlacedEntry).end_frame :=
  srt_import_frame_order 24 (by norm_num) 1 1 sampleDoc
    [⟨"1".data, 1, 5 / 2, 25, 61, 1, "Hello world".data⟩,
      ⟨"2".data, 3, 4, 73, 97, 1, "Line one\nLine two".data⟩]
    (by decide) ⟨"1".data, 1, 5 / 2, 25, 61, 1, "Hello world".data⟩ (by decide)
    (by norm_num)

/-!
## Claims C6 and C7: the exporter
-/

theorem filter_orderedInsert (x : TextStrip) (k : ℤ) :
    ∀ m : List TextStrip,
      (List.orderedInsert stripLe x m).filter (fun s => s.frame_start == k) =
        if x.frame_start = k then x :: m.filter (fun s => s.frame_start == k)
        else m.filter (fun s => s.frame_start == k) := by
  intro m
  induction m with
  | nil =>
    by_cases hxk : x.frame_start = k <;>
      simp [List.orderedInsert, List.filter_cons, hxk]
  | cons b bs ih =>
    by_cases hle : stripLe x b
    · simp only [List.orderedInsert, if_pos hle]
      by_cases hxk : x.frame_start = k <;> simp [List.filter_cons, hxk]
    · simp only [List.orderedInsert, if_neg hle]
      have hlt : b.frame_start < x.frame_start := by
        unfold stripLe at hle
        omega
      by_cases hxk : x.frame_start = k
      · have hbk : ¬ b.frame_start = k := by omega
        simp [List.filter_cons, ih, hxk, hbk]
      · simp [List.filter_cons, ih, hxk]

theorem sortStrips_filter (l : List TextStrip) (k : ℤ) :
    (sortStrips l).filter (fun s => s.frame_start == k) =
      l.filter (fun s => s.frame_start == k) := by
  unfold sortStrips
  induction l with
  | nil => rfl
  | cons x xs ih =>
    rw [List.insertionSort, filter_orderedInsert]
    by_cases hxk : x.frame_start = k
    · rw [if_pos hxk, ih, List.filter_cons, if_pos (by simp [hxk])]
    · rw [if_neg hxk, ih, List.filter_cons, if_neg (by simp [hxk])]

theorem exportBlocks_map_index (fps : ℚ) : ∀ (i : ℕ) (ss : List TextStrip),
    (exportBlocks fps i ss).map (fun b => b.index) = List.range' i ss.length := by
  intro i ss
  induction ss generalizing i with
  | nil => rfl
  | cons s ss ih => simp [exportBlocks, ih, List.range'_succ]

theorem exportBlocks_mem (fps : ℚ) : ∀ (i : ℕ) (ss : List TextStrip) (blk : SRTBlock),
    blk ∈ exportBlocks fps i ss →
      ∃ s ∈ ss, blk.start_sec = ((s.frame_start : ℚ) - 1) / fps ∧
        blk.end_sec = (s.frame_final_end : ℚ) / fps := by
  intro i ss
  induction ss generalizing i with
  | nil => intro blk h; simp [exportBlocks] at h
  | cons s ss ih =>
    intro blk h
    unfold exportBlocks at h
    rcases List.mem_cons.1 h with rfl | h'
    · exact ⟨s, List.mem_cons_self s ss, rfl, rfl⟩
    · obtain ⟨s', hs', h1, h2⟩ := ih (i + 1) blk h'
      exact ⟨s', List.mem_cons_of_mem _ hs', h1, h2⟩

/-- C6: export sorts the selected strips by `start_frame` ascending with a
stable sort — ties keep input relative order (the filter at each key value
is unchanged) — and then numbers the blocks sequentially from 1, discarding
any source indices. -/
theorem srt_export_sort_renumber (fps : ℚ) (l : List TextStrip) (k : ℤ) (h : l ≠ []) :
    List.Sorted stripLe (sortStrips l) ∧
      (sortStrips l).filter (fun s => s.frame_start == k) =
        l.filter (fun s => s.frame_start == k) ∧
      ∃ out, exportSRT fps l = some out ∧
        out.map (fun b => b.index) = List.range' 1 l.length := by
  refine ⟨List.sorted_insertionSort stripLe l, sortStrips_filter l k, ?_⟩
  cases l with
  | nil => exact absurd rfl h
  | cons x xs =>
    refine ⟨exportBlocks fps 1 (sortStrips (x :: xs)), rfl, ?_⟩
    rw [exportBlocks_map_index]
    rw [show (sortStrips (x :: xs)).length = (x :: xs).length from
      List.length_insertionSort stripLe (x :: xs)]

/-- C6 (witness): strips with start frames `[50, 10, 30]` export renumbered
`1, 2, 3` in start-second order `3/8, 29/24, 49/24` (frames 10, 30, 50). -/
theorem srt_export_sort_renumber_witness :
    (exportSRT 24 [⟨50, 60, "a".data⟩, ⟨10, 20, "b".data⟩, ⟨30, 40, "c".data⟩]).map
        (fun out => out.map fun b => (b.index, b.start_sec)) =
      some [(1, 3 / 8), (2, 29 / 24), (3, 49 / 24)] ∧
      (List.Sorted stripLe
          (sortStrips [⟨50, 60, "a".data⟩, ⟨10, 20, "b".data⟩, ⟨30, 40, "c".data⟩]) ∧
        (sortStrips [⟨50, 60, "a".data⟩, ⟨10, 20, "b".data⟩,
            ⟨30, 40, "c".data⟩]).filter (fun s => s.frame_start == 10) =
          ([⟨50, 60, "a".data⟩, ⟨10, 20, "b".data⟩,
            ⟨30, 40, "c".data⟩] : List TextStrip).filter (fun s => s.frame_start == 10) ∧
        ∃ out,
          exportSRT 24 [⟨50, 60, "a".data⟩, ⟨10, 20, "b".data⟩, ⟨30, 40, "c".data⟩] =
              some out ∧
            out.map (fun b => b.index) =
              List.range' 1
                ([⟨50, 60, "a".data⟩, ⟨10, 20, "b".data⟩,
                  ⟨30, 40, "c".data⟩] : List TextStrip).length) :=
  ⟨by decide,
    srt_export_sort_renumber 24 [⟨50, 60, "a".data⟩, ⟨10, 20, "b".data⟩, ⟨30, 40, "c".data⟩]
      10 (by decide)⟩

/-- C7: every exported block's times come from its source strip via the
asymmetric conversion `start_sec = (frame_start - 1) / fps`,
`end_sec = frame_final_end / fps` (no `-1` on the end frame). -/
theorem srt_export_frame_conversion (fps : ℚ) (strips : List TextStrip)
    (out : List SRTBlock) (h : exportSRT fps strips = some out) :
    ∀ blk ∈ out, ∃ s ∈ strips, blk.start_sec = ((s.frame_start : ℚ) - 1) / fps ∧
      blk.end_sec = (s.frame_final_end : ℚ) / fps := by
  intro blk hblk
  unfold exportSRT at h
  split at h
  · exact Option.noConfusion h
  · simp only [Option.some.injEq] at h
    subst h
    obtain ⟨s, hs, h1, h2⟩ := exportBlocks_mem fps 1 (sortStrips strips) blk hblk
    refine ⟨s, ?_, h1, h2⟩
    exact (List.mem_insertionSort stripLe).1 hs

/-- C7 (witness). -/
theorem srt_export_frame_conversion_witness :
    ∃ s ∈ ([⟨10, 20, "b".data⟩] : List TextStrip),
      (⟨1, 3 / 8, 5 / 6, "00:00:00,375".data, "00:00:00,833".data,
          "b".data⟩ : SRTBlock).start_sec = ((s.frame_start : ℚ) - 1) / 24 ∧
        (⟨1, 3 / 8, 5 / 6, "00:00:00,375".data, "00:00:00,833".data,
            "b".data⟩ : SRTBlock).end_sec = (s.frame_final_end : ℚ) / 24 :=
  srt_export_frame_conversion 24 [⟨10, 20, "b".data⟩]
    [⟨1, 3 / 8, 5 / 6, "00:00:00,375".data, "00:00:00,833".data, "b".data⟩]
    (by decide)
    ⟨1, 3 / 8, 5 / 6, "00:00:00,375".data, "00:00:00,833".data, "b".data⟩ (by decide)

end SRTCore
